import Mathlib

/-!
Verification of sloth-fuzzer: field storage, field mapper and parser factory.

A shallow embedding of `include/block_field.h`, `src/const_value_node.cpp`,
`src/field_mapper.cpp` and `src/parser/syntax_parser.cpp`.

* C++ exceptions and unchecked container accesses are made explicit in the
  three-valued type `outcome`.
* `std::map` is an association list with unique keys; only `insert`, `at`
  and `count` are used by the code, so the key order is not observable.
* A `field` handle is embedded together with the implementation it owns.
-/

namespace SlothFuzzer

/-! ## Outcomes of C++ calls -/

/-- The exception classes the embedded code can raise: the three classes of
`exceptions.h` named by the code or its description, and `std::out_of_range`
raised by `std::map::at`. -/
inductive exception where
  | invalid_field_size
  | invalid_index
  | parse_error
  | out_of_range
  deriving DecidableEq, Repr

/-- Result of running a piece of C++: it returns a value, it throws, or it
performs an access whose behaviour C++ leaves undefined (`operator[]` of
`std::vector` past the end: no check is made and nothing is thrown). -/
inductive outcome (α : Type) where
  | value (a : α)
  | throws (e : exception)
  | undefined
  deriving DecidableEq, Repr

/-- Sequencing of two C++ statements: the second runs only when the first
returned. -/
def outcome.and_then {α β : Type} : outcome α → (α → outcome β) → outcome β
  | .value a, k => k a
  | .throws e, _ => .throws e
  | .undefined, _ => .undefined

/-! ## Basic types -/

/-- The unit stored in a field, `field_impl::value_type`. The claims do not
depend on its width, units are natural numbers. -/
abbrev value_type := Nat

/-- The type `field::identifier_type`. -/
abbrev identifier_type := Nat

/-! ## `std::map` -/

/-- Lookup in a `std::map`, the common part of `find`, `at` and `count`. -/
def map_find {κ τ : Type} [DecidableEq κ] : List (κ × τ) → κ → Option τ
  | [], _ => none
  | (k, v) :: rest, key => if k = key then some v else map_find rest key

/-- The call `std::map::insert`: the pair is added only when the key is not
present; an existing entry is left as it is. -/
def map_insert {κ τ : Type} [DecidableEq κ] (m : List (κ × τ)) (key : κ) (v : τ) :
    List (κ × τ) :=
  match map_find m key with
  | some _ => m
  | none => m ++ [(key, v)]

/-- The call `std::map::at`: the mapped value, `std::out_of_range` when the
key is absent. -/
def map_at {κ τ : Type} [DecidableEq κ] (m : List (κ × τ)) (key : κ) : outcome τ :=
  match map_find m key with
  | some v => .value v
  | none => .throws .out_of_range

/-- The call `std::map::count`. -/
def map_count {κ τ : Type} [DecidableEq κ] (m : List (κ × τ)) (key : κ) : Nat :=
  match map_find m key with
  | some _ => 1
  | none => 0

/-! ## `block_field.h` -/

/-- The class `generic_block_field_impl<std::vector<value_type>>`: its only
member is the container `data`. -/
structure block_field_impl where
  data : List value_type
  deriving DecidableEq, Repr

/-- The constructor `generic_block_field_impl(size_t data_size)`:
`data(data_size)` value-initialises `data_size` units. -/
def block_field_impl.create (data_size : Nat) : block_field_impl :=
  ⟨List.replicate data_size 0⟩

/-- The member `size()`: `data.size()`. -/
def block_field_impl.size (b : block_field_impl) : Nat :=
  b.data.length

/-- The member `set(index, value)`: `data[index] = value`. The code makes no
bounds check, so past the end the access is undefined. -/
def block_field_impl.set (b : block_field_impl) (index : Nat) (value : value_type) :
    outcome block_field_impl :=
  if index < b.data.length then .value ⟨b.data.set index value⟩ else .undefined

/-- The member `get(index)`: `return data[index]`, again without a check. -/
def block_field_impl.get (b : block_field_impl) (index : Nat) : outcome value_type :=
  match b.data.get? index with
  | some v => .value v
  | none => .undefined

/-! ## Fields -/

/-- Modelled from the spec: the class `field` of `field.h`, which is not part
of the sources. A field is a handle that owns one implementation and carries
an identifier (`id()`); the implementation is a block (`block_field.h`) or
the ordered children of a compound (`compound_field_impl::fields`). -/
inductive field where
  | block (identifier : identifier_type) (impl : block_field_impl)
  | compound (identifier : identifier_type) (fields : List field)
  deriving Repr

/-- Modelled from the spec: the member `field::id()` of `field.h`, the
identifier the field carries. -/
def field.id : field → identifier_type
  | .block identifier _ => identifier
  | .compound identifier _ => identifier

mutual
/-- Modelled from the spec: the member `field::size()` of `field.h`,
forwarded to the implementation. For a block it is
`generic_block_field_impl::size`; for a compound (`compound_field.cpp` is not
part of the sources) "its size is the sum of children's sizes". -/
def field.size : field → Nat
  | .block _ impl => impl.size
  | .compound _ fields => field.size_sum fields
/-- Sum of the sizes of a child list. -/
def field.size_sum : List field → Nat
  | [] => 0
  | f :: rest => f.size + field.size_sum rest
end

mutual
/-- Modelled from the spec: the member `field::get(index)` of `field.h`,
forwarded to the implementation. For a block it is
`generic_block_field_impl::get`; a compound (`compound_field.cpp` is not part
of the sources) "addresses a single flat index space spanning all children"
and signals `invalid_index` outside of it. -/
def field.get : field → Nat → outcome value_type
  | .block _ impl, index => impl.get index
  | .compound _ fields, index => field.get_at fields index
/-- Flat-index read in a child list. -/
def field.get_at : List field → Nat → outcome value_type
  | [], _ => .throws .invalid_index
  | f :: rest, index =>
    if index < f.size then f.get index else field.get_at rest (index - f.size)
end

mutual
/-- Modelled from the spec: the member `field::set(index, value)` of
`field.h`, forwarded to the implementation; the field after the write is
returned. For a block it is `generic_block_field_impl::set`; a compound is
addressed as in `field.get`. -/
def field.set : field → Nat → value_type → outcome field
  | .block identifier impl, index, value =>
    match impl.set index value with
    | .value impl1 => .value (.block identifier impl1)
    | .throws e => .throws e
    | .undefined => .undefined
  | .compound identifier fields, index, value =>
    match field.set_at fields index value with
    | .value fields1 => .value (.compound identifier fields1)
    | .throws e => .throws e
    | .undefined => .undefined
/-- Flat-index write in a child list. -/
def field.set_at : List field → Nat → value_type → outcome (List field)
  | [], _, _ => .throws .invalid_index
  | f :: rest, index, value =>
    if index < f.size then
      match f.set index value with
      | .value f1 => .value (f1 :: rest)
      | .throws e => .throws e
      | .undefined => .undefined
    else
      match field.set_at rest (index - f.size) value with
      | .value rest1 => .value (f :: rest1)
      | .throws e => .throws e
      | .undefined => .undefined
end

/-! ## `const_value_node.cpp` -/

/-- Modelled from the spec: the iterator `f.begin()` of `field.h` (not part
of the sources) gives "uniform index-based access". The call
`std::copy(first, last, it)` with the iterator at position `index` writes
each unit with `set` and advances the iterator by one. -/
def copy_to_field : List value_type → field → Nat → outcome field
  | [], f, _ => .value f
  | v :: rest, f, index =>
    match f.set index v with
    | .value f1 => copy_to_field rest f1 (index + 1)
    | .throws e => .throws e
    | .undefined => .undefined

/-- The node `const_string_node`: its member `value`, as units. -/
structure const_string_node where
  value : List value_type
  deriving DecidableEq, Repr

/-- The member `const_string_node::fill(f, mapper)`; the mapper is not
used. The field after the call is returned. -/
def const_string_node.fill (node : const_string_node) (f : field) : outcome field :=
  if f.size < node.value.length then .throws .invalid_field_size
  else copy_to_field node.value f 0

/-! ## `field_mapper.cpp` -/

mutual
/-- Modelled from the spec: `field::accept_visitor` (declared in `field.h`,
which is not part of the sources) calls the visitor on the field itself and
then recurses into the children of a container, in declaration order. The
visitor is a state transformer. -/
def field.accept_visitor {σ : Type} (visitor : σ → field → σ) : field → σ → σ
  | .block identifier impl, s => visitor s (.block identifier impl)
  | .compound identifier fields, s =>
    field.accept_visitor_children visitor fields (visitor s (.compound identifier fields))
/-- The recursion of `accept_visitor` into a child list. -/
def field.accept_visitor_children {σ : Type} (visitor : σ → field → σ) :
    List field → σ → σ
  | [], s => s
  | f :: rest, s =>
    field.accept_visitor_children visitor rest (field.accept_visitor visitor f s)
end

mutual
/-- The fields `accept_visitor` calls its visitor on, in the order of the
calls. -/
def field.visited : field → List field
  | .block identifier impl => [.block identifier impl]
  | .compound identifier fields =>
    .compound identifier fields :: field.visited_children fields
/-- The fields visited in a child list. -/
def field.visited_children : List field → List field
  | [] => []
  | f :: rest => field.visited f ++ field.visited_children rest
end

/-- The class `field_mapper`: the tables `str2id` and `id2field`. The table
`id2field` holds references to fields; the embedding stores the field the
reference designated when it was bound. Modelled from the spec: `next_id`
is the source of newly assigned identifiers, which `field_mapper.h` (not
part of the sources) provides to the one-argument `register_field`. -/
structure field_mapper where
  str2id : List (String × identifier_type)
  id2field : List (identifier_type × field)
  next_id : identifier_type

/-- A mapper with empty tables. -/
def field_mapper.empty : field_mapper :=
  ⟨[], [], 0⟩

/-- The member `field_mapper::register_field(name, id)`:
`str2id.insert(std::make_pair(std::move(name), id))`. -/
def field_mapper.register_field (m : field_mapper) (name : String) (id : identifier_type) :
    field_mapper :=
  { m with str2id := map_insert m.str2id name id }

/-- The member `field_mapper::visit(f)`: `id2field.insert({ f.id(), f })`. -/
def field_mapper.visit (m : field_mapper) (f : field) : field_mapper :=
  { m with id2field := map_insert m.id2field f.id f }

/-- The member `field_mapper::identify_fields(root)`: `root.accept_visitor`
with `visit` bound to this mapper. -/
def field_mapper.identify_fields (m : field_mapper) (root : field) : field_mapper :=
  field.accept_visitor field_mapper.visit root m

/-- The member `field_mapper::find_field(id)`: `id2field.at(id)`. -/
def field_mapper.find_field (m : field_mapper) (id : identifier_type) : outcome field :=
  map_at m.id2field id

/-- Modelled from the spec: the one-argument `register_field(name)` of
`field_mapper.h` (not part of the sources) "returns a newly assigned
identifier the first time a name is seen, the same identifier on subsequent
calls with the same name". The new binding is stored with the two-argument
`register_field` of `field_mapper.cpp`. -/
def field_mapper.register_field_name (m : field_mapper) (name : String) :
    identifier_type × field_mapper :=
  match map_find m.str2id name with
  | some id => (id, m)
  | none => (m.next_id, { m.register_field name m.next_id with next_id := m.next_id + 1 })

/-- Modelled from the spec: `find_register_field_name(name)` of
`field_mapper.h` (not part of the sources) finds the identifier bound to the
name and registers the name when it has none, so that a reference to a name
can precede its declaration. -/
def field_mapper.find_register_field_name (m : field_mapper) (name : String) :
    identifier_type × field_mapper :=
  match map_find m.str2id name with
  | some id => (id, m)
  | none => (m.next_id, { m.register_field name m.next_id with next_id := m.next_id + 1 })

/-- The mapper states a program can build: from the empty mapper by calls of
the public members. -/
inductive field_mapper.reachable : field_mapper → Prop where
  | empty : field_mapper.reachable field_mapper.empty
  | register_field (m : field_mapper) (name : String) (id : identifier_type) :
      field_mapper.reachable m → field_mapper.reachable (m.register_field name id)
  | register_field_name (m : field_mapper) (name : String) :
      field_mapper.reachable m → field_mapper.reachable (m.register_field_name name).2
  | find_register_field_name (m : field_mapper) (name : String) :
      field_mapper.reachable m → field_mapper.reachable (m.find_register_field_name name).2
  | identify_fields (m : field_mapper) (root : field) :
      field_mapper.reachable m → field_mapper.reachable (m.identify_fields root)

/-- The invariant of the two tables: keys are unique and every entry of
`id2field` binds the identifier of the field it holds. -/
def field_mapper.consistent (m : field_mapper) : Prop :=
  (m.str2id.map Prod.fst).Nodup ∧ (m.id2field.map Prod.fst).Nodup ∧
    ∀ e ∈ m.id2field, e.2.id = e.1

/-! ## `parser/syntax_parser.cpp` -/

/-- The narrowing `double` to `float` applied to a number in the call of a
function with a `float` parameter, on natural numbers: the number of low
bits a 24-bit significand cannot hold. -/
def float_shift : Nat → Nat → Nat
  | 0, _ => 0
  | fuel + 1, v => if v < 2 ^ 24 then 0 else float_shift fuel (v / 2) + 1

/-- The narrowing `double` to `float` of a natural number `v` that is a
`double`: `v` is rounded to the nearest number with a 24-bit significand,
ties to the even significand (the default rounding of the conversion);
`none` is the infinity reached from `2 ^ 128 - 2 ^ 103` on. -/
def double_to_float (v : Nat) : Option Nat :=
  let s := float_shift 105 v
  let q := v / 2 ^ s
  let r := v % 2 ^ s
  let m := if 2 * r < 2 ^ s then q
    else if 2 * r = 2 ^ s then (if q % 2 = 0 then q else q + 1)
    else q + 1
  if m * 2 ^ s < 2 ^ 128 then some (m * 2 ^ s) else none

/-- The node `const_value_node`: its member `value`, a number (`none` for an
infinity). -/
structure const_value_node where
  value : Option Nat
  deriving DecidableEq, Repr

/-- The constructor `const_value_node(float value)`: the parameter is a
`float`, so the argument of a caller is narrowed to `float` before it is
stored. -/
def const_value_node.create (argument : Nat) : const_value_node :=
  ⟨double_to_float argument⟩

/-- The member `const_value_node::eval(mapper)`: `return value`; the mapper
is not used. -/
def const_value_node.eval (node : const_value_node) : Option Nat :=
  node.value

/-- Modelled from the spec: the value operations of the grammar headers (not
part of the sources) that the factory members build, each "bound to a target
identifier": a reference to a field (`grammar::node_value_node`) and the
nodes of the three value functions the constructor registers
(`size_function`, `field_count_function`, `crc32_function`); a constant is
the node of `const_value_node.cpp`. -/
inductive value_node where
  | const_value (node : const_value_node)
  | node_value_node (id : identifier_type)
  | size_function (id : identifier_type)
  | field_count_function (id : identifier_type)
  | crc32_function (id : identifier_type)
  deriving DecidableEq, Repr

/-- Modelled from the spec: the filling operations of the grammar headers
(not part of the sources) that the factory members build: constant content
(`grammar::const_string_node`), the nodes of the two filling functions the
constructor registers (`md5_function`, `sha1_function`), and the filler that
writes the result of a value operation
(`grammar::function_value_filler_node`). -/
inductive filler_node where
  | const_string (node : const_string_node)
  | md5_function (id : identifier_type)
  | sha1_function (id : identifier_type)
  | function_value_filler_node (value : value_node)
  deriving DecidableEq, Repr

/-- Modelled from the spec: the declaration `grammar::block_field_node` of the
grammar headers (not part of the sources), which `make_block_node` builds
from `(filler, size)` or from `(filler, size, id)`; a null filler pointer is
`none`. -/
inductive field_node where
  | block_field_node (filler : Option filler_node) (size : Nat) (id : Option identifier_type)
  deriving DecidableEq, Repr

/-- Modelled from the spec: the script root `grammar::script` of the grammar
headers (not part of the sources); `get_root_field` reads its member
`fields`, the top-level declarations in order. -/
structure script where
  fields : List field_node
  deriving DecidableEq, Repr

/-- The class `syntax_parser`, by the members `syntax_parser.cpp` uses: the
mapper, the script root (a null pointer is `none`) and the two function
registries, which map a key to a factory taking the identifier of the
target. The table `templates` plays no part in the members embedded here. -/
structure SyntaxParser where
  mapper : field_mapper
  script_root : Option script
  filler_functions : List (String × (identifier_type → filler_node))
  value_functions : List (String × (identifier_type → value_node))

/-- Modelled from the spec: `register_filler_function<Functor>(name)` of
`syntax_parser.h` (not part of the sources) registers a filling operation
"under a string key mapped to a factory taking a target identifier and
returning the bound operation node". -/
def SyntaxParser.register_filler_function (p : SyntaxParser) (name : String)
    (factory : identifier_type → filler_node) : SyntaxParser :=
  { p with filler_functions := map_insert p.filler_functions name factory }

/-- Modelled from the spec: `register_value_function<Functor>(name)`, as
`register_filler_function` for value operations. -/
def SyntaxParser.register_value_function (p : SyntaxParser) (name : String)
    (factory : identifier_type → value_node) : SyntaxParser :=
  { p with value_functions := map_insert p.value_functions name factory }

/-- The constructor: the five registrations on an otherwise empty
parser. -/
def SyntaxParser.create : SyntaxParser :=
  let p0 : SyntaxParser := ⟨field_mapper.empty, none, [], []⟩
  let p1 := p0.register_filler_function "md5" filler_node.md5_function
  let p2 := p1.register_filler_function "sha1" filler_node.sha1_function
  let p3 := p2.register_value_function "size" value_node.size_function
  let p4 := p3.register_value_function "count" value_node.field_count_function
  p4.register_value_function "crc32" value_node.crc32_function

/-- The member `set_script(scr)`. -/
def SyntaxParser.set_script (p : SyntaxParser) (scr : Option script) : SyntaxParser :=
  { p with script_root := scr }

/-- The member `is_filler_function(name)`:
`filler_functions.count(name) == 1`. -/
def SyntaxParser.is_filler_function (p : SyntaxParser) (name : String) : Bool :=
  map_count p.filler_functions name == 1

/-- The member `is_value_function(name)`: `value_functions.count(name) == 1`. -/
def SyntaxParser.is_value_function (p : SyntaxParser) (name : String) : Bool :=
  map_count p.value_functions name == 1

/-- The member `allocate_filler_function(name, id)`:
`filler_functions.at(name)(id)`. -/
def SyntaxParser.allocate_filler_function (p : SyntaxParser) (name : String)
    (id : identifier_type) : outcome filler_node :=
  (map_at p.filler_functions name).and_then (fun factory => .value (factory id))

/-- The member `allocate_value_function(name, id)`:
`value_functions.at(name)(id)`. -/
def SyntaxParser.allocate_value_function (p : SyntaxParser) (name : String)
    (id : identifier_type) : outcome value_node :=
  (map_at p.value_functions name).and_then (fun factory => .value (factory id))

/-- The member `make_block_node(filler, size, name)`: the identifier comes
from `mapper.register_field(name)`. The parser after the call is returned
with the node. -/
def SyntaxParser.make_block_node (p : SyntaxParser) (filler : Option filler_node)
    (size : Nat) (name : String) : field_node × SyntaxParser :=
  let r := p.mapper.register_field_name name
  (.block_field_node filler size (some r.1), { p with mapper := r.2 })

/-- The member `make_node_value_node(name)`: the identifier comes from
`mapper.find_register_field_name(name)`. -/
def SyntaxParser.make_node_value_node (p : SyntaxParser) (name : String) :
    value_node × SyntaxParser :=
  let r := p.mapper.find_register_field_name name
  (.node_value_node r.1, { p with mapper := r.2 })

/-- The member `make_node_filler_node(field_name, function_name)`. The
result is a pointer: `none` is the null pointer of the last branch. -/
def SyntaxParser.make_node_filler_node (p : SyntaxParser) (field_name : String)
    (function_name : String) : outcome (Option filler_node) × SyntaxParser :=
  let r := p.mapper.find_register_field_name field_name
  let p1 : SyntaxParser := { p with mapper := r.2 }
  if p1.is_filler_function function_name then
    ((p1.allocate_filler_function function_name r.1).and_then (fun n => .value (some n)), p1)
  else if p1.is_value_function function_name then
    ((p1.allocate_value_function function_name r.1).and_then
      (fun v => .value (some (filler_node.function_value_filler_node v))), p1)
  else
    (.value none, p1)

/-- The member `make_node_value_function_node(field_name, function_name)`. -/
def SyntaxParser.make_node_value_function_node (p : SyntaxParser) (field_name : String)
    (function_name : String) : outcome (Option value_node) × SyntaxParser :=
  let r := p.mapper.find_register_field_name field_name
  let p1 : SyntaxParser := { p with mapper := r.2 }
  ((p1.allocate_value_function function_name r.1).and_then (fun v => .value (some v)), p1)

/-- A call of a factory member made by the grammar parser while it reads a
script. -/
inductive factory_call where
  | make_block_node (filler : Option filler_node) (size : Nat) (name : String)
  | make_node_value_node (name : String)
  | make_node_filler_node (field_name : String) (function_name : String)
  | make_node_value_function_node (field_name : String) (function_name : String)
  deriving DecidableEq, Repr

/-- The parser after one factory call. -/
def SyntaxParser.run_call (p : SyntaxParser) : factory_call → SyntaxParser
  | .make_block_node filler size name => (p.make_block_node filler size name).2
  | .make_node_value_node name => (p.make_node_value_node name).2
  | .make_node_filler_node field_name function_name =>
    (p.make_node_filler_node field_name function_name).2
  | .make_node_value_function_node field_name function_name =>
    (p.make_node_value_function_node field_name function_name).2

/-- The parser after a sequence of factory calls. -/
def SyntaxParser.run_calls (p : SyntaxParser) (calls : List factory_call) : SyntaxParser :=
  calls.foldl SyntaxParser.run_call p

/-- The globals of `syntax_parser.cpp` shared with the grammar parser:
`istr` (the input, `none` for a null pointer), `curr_lineno` and whether
`grammar_syntax_parser` points to a parser
(`grammar_syntax_parser_set`). -/
structure parser_globals where
  istr : Option String
  curr_lineno : Int
  grammar_syntax_parser_set : Bool
  deriving DecidableEq, Repr

/-- What one call of `parse` did: how it ended, the parser and the globals it
left, and the script roots `check_constraints` was run on, in order. -/
structure parse_run where
  result : outcome Unit
  parser : SyntaxParser
  globals : parser_globals
  checked : List script

/-- The member `parse(std::istream &input)`. The grammar parser `yyparse`
is external: it reads the globals, drives the parser through its factory
members (possibly `set_script`) and returns a status. The member
`script::check_constraints` is not part of the sources and is a parameter
as well. -/
def SyntaxParser.parse
    (yyparse : parser_globals → SyntaxParser → Int × parser_globals × SyntaxParser)
    (check_constraints : script → outcome Unit)
    (p : SyntaxParser) (input : String) : parse_run :=
  let g0 : parser_globals := ⟨some input, 1, true⟩
  let r := yyparse g0 p
  if r.1 ≠ 0 then ⟨.throws .parse_error, r.2.2, r.2.1, []⟩
  else
    match r.2.2.script_root with
    | none => ⟨.throws .parse_error, r.2.2, r.2.1, []⟩
    | some root =>
      ⟨check_constraints root, r.2.2,
        { r.2.1 with grammar_syntax_parser_set := false, istr := none }, [root]⟩

/-- The member `make_const_value_node(f)`:
`node_alloc<grammar::const_value_node>(f)` with `f` a `double`. -/
def SyntaxParser.make_const_value_node (p : SyntaxParser) (f : Nat) :
    value_node × SyntaxParser :=
  (.const_value (const_value_node.create f), p)

/-! ## `compound_field.h` -/

/-- The class `compound_field_impl` of `compound_field.h`: the children
`fields` and the cached `total_size`. The table `indexes` and its cache
`last_iterator` serve `get` and `set` and are not embedded. -/
structure compound_field_impl where
  fields : List field
  total_size : Nat

/-- Modelled from the spec: the constructor `compound_field_impl()`, whose
body is in `compound_field.cpp` (not part of the sources): no children, size
zero. -/
def compound_field_impl.create : compound_field_impl :=
  ⟨[], 0⟩

/-- Modelled from the spec: the member `add_field(child)`, whose body is in
`compound_field.cpp` (not part of the sources): the child is appended to the
"ordered sequence of child Fields" and the cached size grows by its size. -/
def compound_field_impl.add_field (c : compound_field_impl) (child : field) :
    compound_field_impl :=
  ⟨c.fields ++ [child], c.total_size + child.size⟩

/-- Modelled from the spec: the member `size()`, whose body is in
`compound_field.cpp` (not part of the sources): the cached `total_size`. -/
def compound_field_impl.size (c : compound_field_impl) : Nat :=
  c.total_size

/-- Modelled from the spec: the constructor from a range of children that
`get_root_field` calls (not part of the sources): every child of the range
is added in order. -/
def compound_field_impl.from_range (children : List field) : compound_field_impl :=
  children.foldl compound_field_impl.add_field compound_field_impl.create

/-- The loop of `get_root_field`: `fields.push_back(i->allocate(mapper))` for
each declaration in order. The member `allocate` of a declaration is not
part of the sources and is a parameter: it reads and may change the mapper,
and it may throw. -/
def SyntaxParser.allocate_fields
    (allocate : field_node → field_mapper → outcome (field × field_mapper)) :
    List field_node → field_mapper → List field → outcome (List field × field_mapper)
  | [], m, fields => .value (fields, m)
  | d :: rest, m, fields =>
    match allocate d m with
    | .value r => SyntaxParser.allocate_fields allocate rest r.2 (fields ++ [r.1])
    | .throws e => .throws e
    | .undefined => .undefined

/-- The member `get_root_field()`. The identifier of a field built without
one, `field(nullptr, std::move(impl))`, is given by `field.h` (not part of
the sources) and is the parameter `unnamed_id`. The parser after the call is
returned with the field. -/
def SyntaxParser.get_root_field
    (allocate : field_node → field_mapper → outcome (field × field_mapper))
    (unnamed_id : identifier_type) (p : SyntaxParser) : outcome (field × SyntaxParser) :=
  match p.script_root with
  | none => .throws .parse_error
  | some root =>
    match SyntaxParser.allocate_fields allocate root.fields p.mapper [] with
    | .value r =>
      .value (.compound unnamed_id (compound_field_impl.from_range r.1).fields,
        { p with mapper := r.2 })
    | .throws e => .throws e
    | .undefined => .undefined

/-- The mapper the loop of `get_root_field` hands to the declaration after
the given ones: the mapper left by their `allocate` calls. -/
def SyntaxParser.mapper_after
    (allocate : field_node → field_mapper → outcome (field × field_mapper)) :
    List field_node → field_mapper → field_mapper
  | [], m => m
  | d :: rest, m =>
    match allocate d m with
    | .value r => SyntaxParser.mapper_after allocate rest r.2
    | .throws _ => m
    | .undefined => m

/-- A sequence of `set(index, value)` calls on a block, in order. -/
def block_field_impl.set_all :
    block_field_impl → List (Nat × value_type) → outcome block_field_impl
  | b, [] => .value b
  | b, c :: rest =>
    match b.set c.1 c.2 with
    | .value b1 => block_field_impl.set_all b1 rest
    | .throws e => .throws e
    | .undefined => .undefined

/-! ## Lemmas on field access -/

theorem block_set_value (b : block_field_impl) (i : Nat) (v : value_type)
    (h : i < b.size) : b.set i v = .value ⟨b.data.set i v⟩ := by
  have hlt : i < b.data.length := h
  unfold block_field_impl.set
  rw [if_pos hlt]

theorem block_get_value (b : block_field_impl) (i : Nat) (h : i < b.size) :
    b.get i = .value (b.data.get ⟨i, h⟩) := by
  unfold block_field_impl.get
  rw [List.get?_eq_get h]

theorem block_get_undefined (b : block_field_impl) (i : Nat) (h : b.size ≤ i) :
    b.get i = .undefined := by
  unfold block_field_impl.get
  rw [List.get?_eq_none.mpr h]

theorem block_get_set (b : block_field_impl) (i j : Nat) (v : value_type) :
    block_field_impl.get ⟨b.data.set i v⟩ j
      = if j = i ∧ i < b.size then .value v else b.get j := by
  unfold block_field_impl.get block_field_impl.size
  simp only [List.get?_eq_getElem?, List.getElem?_set]
  by_cases hji : j = i
  · subst hji
    by_cases hlt : j < b.data.length
    · simp [hlt]
    · have hnone : b.data[j]? = none := List.getElem?_eq_none (Nat.le_of_not_lt hlt)
      simp [hlt, hnone]
  · have hne : ¬ i = j := fun h => hji h.symm
    simp [hji, hne]

mutual
theorem field.set_in_range (f : field) (i : Nat) (v : value_type) (h : i < f.size) :
    ∃ f1, f.set i v = .value f1 ∧ f1.size = f.size ∧ f1.id = f.id ∧
      ∀ j, f1.get j = if j = i then .value v else f.get j := by
  match f with
  | .block identifier impl =>
    have hb : i < impl.size := by simpa [field.size] using h
    refine ⟨.block identifier ⟨impl.data.set i v⟩, ?_, ?_, rfl, ?_⟩
    · simp [field.set, block_set_value impl i v hb]
    · simp [field.size, block_field_impl.size]
    · intro j
      simp only [field.get]
      rw [block_get_set]
      by_cases hji : j = i
      · simp [hji, hb]
      · simp [hji]
  | .compound identifier fields =>
    have hs : i < field.size_sum fields := by simpa [field.size] using h
    obtain ⟨fs1, h1, h2, h3⟩ := field.set_at_in_range fields i v hs
    refine ⟨.compound identifier fs1, ?_, ?_, rfl, ?_⟩
    · simp [field.set, h1]
    · simp [field.size, h2]
    · intro j
      simp only [field.get]
      exact h3 j
theorem field.set_at_in_range (fs : List field) (i : Nat) (v : value_type)
    (h : i < field.size_sum fs) :
    ∃ fs1, field.set_at fs i v = .value fs1 ∧ field.size_sum fs1 = field.size_sum fs ∧
      ∀ j, field.get_at fs1 j = if j = i then .value v else field.get_at fs j := by
  match fs with
  | [] => simp [field.size_sum] at h
  | f :: rest =>
    by_cases hlt : i < f.size
    · obtain ⟨f1, h1, h2, _, h4⟩ := field.set_in_range f i v hlt
      refine ⟨f1 :: rest, ?_, ?_, ?_⟩
      · simp [field.set_at, hlt, h1]
      · simp [field.size_sum, h2]
      · intro j
        simp only [field.get_at, h2]
        by_cases hj : j < f.size
        · simp [hj, h4 j]
        · have hji : j ≠ i := by omega
          simp [hj, hji]
    · have hs : i - f.size < field.size_sum rest := by
        simp only [field.size_sum] at h
        omega
      obtain ⟨r1, h1, h2, h3⟩ := field.set_at_in_range rest (i - f.size) v hs
      refine ⟨f :: r1, ?_, ?_, ?_⟩
      · simp [field.set_at, hlt, h1]
      · simp [field.size_sum, h2]
      · intro j
        simp only [field.get_at]
        by_cases hj : j < f.size
        · have hji : j ≠ i := by omega
          simp [hj, hji]
        · simp only [hj, if_false, h3]
          by_cases hji : j = i
          · simp [hji]
          · have hne : j - f.size ≠ i - f.size := by omega
            simp [hji, hne]
end

theorem copy_to_field_in_range (vs : List value_type) :
    ∀ (f : field) (index : Nat), index + vs.length ≤ f.size →
      ∃ f1, copy_to_field vs f index = .value f1 ∧ f1.size = f.size ∧ f1.id = f.id ∧
        ∀ j, f1.get j = match vs.get? (j - index) with
          | some v => if index ≤ j then .value v else f.get j
          | none => f.get j := by
  induction vs with
  | nil =>
    intro f index _
    exact ⟨f, rfl, rfl, rfl, fun j => by simp⟩
  | cons v rest ih =>
    intro f index h
    have hlen : (v :: rest).length = rest.length + 1 := rfl
    have hi : index < f.size := by omega
    obtain ⟨f0, h1, h2, h3, h4⟩ := field.set_in_range f index v hi
    have hrest : index + 1 + rest.length ≤ f0.size := by omega
    obtain ⟨f1, k1, k2, k3, k4⟩ := ih f0 (index + 1) hrest
    refine ⟨f1, ?_, ?_, ?_, ?_⟩
    · simp [copy_to_field, h1, k1]
    · rw [k2, h2]
    · rw [k3, h3]
    · intro j
      rw [k4 j, h4 j]
      by_cases hj : j = index
      · subst hj
        have hnot : ¬ (j + 1 ≤ j) := by omega
        simp only [Nat.sub_self, List.get?_cons_zero, le_refl, if_true, hnot, if_false]
        cases rest.get? (j - (j + 1)) <;> rfl
      · by_cases hlt : j < index
        · have hz : j - index = 0 := by omega
          have hz1 : j - (index + 1) = 0 := by omega
          have hn1 : ¬ (index + 1 ≤ j) := by omega
          have hn : ¬ (index ≤ j) := by omega
          rw [hz, hz1]
          cases rest with
          | nil => simp [hj, hn]
          | cons w tl => simp [hj, hn, hn1]
        · have hs : j - index = (j - (index + 1)) + 1 := by omega
          have hle : index ≤ j := by omega
          have hle1 : index + 1 ≤ j := by omega
          rw [hs]
          simp [hj, hle, hle1]

theorem const_string_fill_in_range (node : const_string_node) (f : field)
    (h : node.value.length ≤ f.size) :
    ∃ f1, node.fill f = .value f1 ∧ f1.size = f.size ∧ f1.id = f.id ∧
      (∀ i (hi : i < node.value.length), f1.get i = .value (node.value.get ⟨i, hi⟩)) ∧
      (∀ j, node.value.length ≤ j → f1.get j = f.get j) := by
  have h0 : 0 + node.value.length ≤ f.size := by omega
  obtain ⟨f1, h1, h2, h3, h4⟩ := copy_to_field_in_range node.value f 0 h0
  refine ⟨f1, ?_, h2, h3, ?_, ?_⟩
  · unfold const_string_node.fill
    rw [if_neg (by omega), h1]
  · intro i hi
    rw [h4 i]
    simp only [Nat.sub_zero, List.get?_eq_get hi, Nat.zero_le, if_true]
  · intro j hj
    rw [h4 j]
    have hnone : node.value.get? (j - 0) = none := List.get?_eq_none.mpr (by simpa using hj)
    rw [hnone]

/-! ## Lemmas on `std::map` -/

theorem map_find_mem {κ τ : Type} [DecidableEq κ] (m : List (κ × τ)) (key : κ) (v : τ)
    (h : map_find m key = some v) : (key, v) ∈ m := by
  induction m with
  | nil => simp [map_find] at h
  | cons e rest ih =>
    obtain ⟨k, x⟩ := e
    by_cases hk : k = key
    · simp only [map_find, hk, if_true, Option.some.injEq] at h
      simp [hk, h]
    · simp only [map_find, hk, if_false] at h
      exact List.mem_cons_of_mem _ (ih h)

theorem map_find_none_iff {κ τ : Type} [DecidableEq κ] (m : List (κ × τ)) (key : κ) :
    map_find m key = none ↔ ∀ v, (key, v) ∉ m := by
  induction m with
  | nil => simp [map_find]
  | cons e rest ih =>
    obtain ⟨k, x⟩ := e
    by_cases hk : k = key
    · subst hk
      simp only [map_find, if_true]
      constructor
      · intro h
        cases h
      · intro h
        exact absurd (List.mem_cons_self _ _) (h x)
    · simp only [map_find, hk, if_false, ih]
      constructor
      · intro h v hv
        rcases List.mem_cons.mp hv with heq | hmem
        · exact hk (by cases heq; rfl)
        · exact h v hmem
      · intro h v hv
        exact h v (List.mem_cons_of_mem _ hv)

theorem map_find_of_mem {κ τ : Type} [DecidableEq κ] (m : List (κ × τ)) (key : κ) (v : τ)
    (hkeys : (m.map Prod.fst).Nodup) (h : (key, v) ∈ m) : map_find m key = some v := by
  induction m with
  | nil => cases h
  | cons e rest ih =>
    obtain ⟨k, x⟩ := e
    simp only [List.map_cons, List.nodup_cons] at hkeys
    rcases List.mem_cons.mp h with heq | hmem
    · cases heq
      simp [map_find]
    · have hne : k ≠ key := by
        intro hk
        apply hkeys.1
        rw [hk]
        exact List.mem_map_of_mem Prod.fst hmem
      simp only [map_find, hne, if_false]
      exact ih hkeys.2 hmem

theorem map_find_append {κ τ : Type} [DecidableEq κ] (m n : List (κ × τ)) (key : κ) :
    map_find (m ++ n) key = match map_find m key with
      | some v => some v
      | none => map_find n key := by
  induction m with
  | nil => simp [map_find]
  | cons e rest ih =>
    obtain ⟨k, x⟩ := e
    by_cases hk : k = key
    · simp [map_find, hk]
    · simp only [List.cons_append, map_find, hk, if_false]
      exact ih

theorem map_find_insert {κ τ : Type} [DecidableEq κ] (m : List (κ × τ)) (key k : κ) (v : τ) :
    map_find (map_insert m key v) k = match map_find m k with
      | some x => some x
      | none => if key = k then some v else none := by
  unfold map_insert
  cases hkey : map_find m key with
  | some y =>
    simp only
    cases hk : map_find m k with
    | some x => rfl
    | none =>
      have hne : ¬ key = k := by
        intro h
        rw [h, hk] at hkey
        cases hkey
      simp [hne]
  | none =>
    simp only
    rw [map_find_append]
    cases hk : map_find m k with
    | some x => rfl
    | none => simp [map_find]

theorem map_insert_keys_nodup {κ τ : Type} [DecidableEq κ] (m : List (κ × τ)) (key : κ)
    (v : τ) (hkeys : (m.map Prod.fst).Nodup) :
    ((map_insert m key v).map Prod.fst).Nodup := by
  unfold map_insert
  cases hkey : map_find m key with
  | some y => exact hkeys
  | none =>
    simp only [List.map_append, List.map_cons, List.map_nil]
    rw [List.nodup_append]
    refine ⟨hkeys, List.nodup_singleton _, ?_⟩
    intro a ha hb
    rw [List.mem_singleton] at hb
    subst hb
    obtain ⟨e, he, hfst⟩ := List.mem_map.mp ha
    obtain ⟨k, x⟩ := e
    simp only at hfst
    subst hfst
    exact (map_find_none_iff m k).mp hkey x he

theorem map_insert_mem {κ τ : Type} [DecidableEq κ] (m : List (κ × τ)) (key : κ) (v : τ)
    (e : κ × τ) (h : e ∈ map_insert m key v) : e ∈ m ∨ e = (key, v) := by
  unfold map_insert at h
  cases hkey : map_find m key with
  | some y =>
    rw [hkey] at h
    exact Or.inl h
  | none =>
    rw [hkey] at h
    simp only [List.mem_append, List.mem_singleton] at h
    exact h

/-! ## Lemmas on the field mapper -/

mutual
theorem field.accept_visitor_eq_foldl {σ : Type} (visitor : σ → field → σ) (f : field)
    (s : σ) : field.accept_visitor visitor f s = (field.visited f).foldl visitor s := by
  match f with
  | .block identifier impl => simp [field.accept_visitor, field.visited]
  | .compound identifier fields =>
    simp only [field.accept_visitor, field.visited, List.foldl_cons]
    exact field.accept_visitor_children_eq_foldl visitor fields _
theorem field.accept_visitor_children_eq_foldl {σ : Type} (visitor : σ → field → σ)
    (fs : List field) (s : σ) :
    field.accept_visitor_children visitor fs s
      = (field.visited_children fs).foldl visitor s := by
  match fs with
  | [] => simp [field.accept_visitor_children, field.visited_children]
  | f :: rest =>
    simp only [field.accept_visitor_children, field.visited_children, List.foldl_append]
    rw [field.accept_visitor_eq_foldl visitor f s]
    exact field.accept_visitor_children_eq_foldl visitor rest _
end

theorem identify_fields_eq_foldl (m : field_mapper) (root : field) :
    m.identify_fields root = (field.visited root).foldl field_mapper.visit m :=
  field.accept_visitor_eq_foldl field_mapper.visit root m

theorem visit_all_find (l : List field) :
    ∀ (m : field_mapper) (k : identifier_type),
      map_find (l.foldl field_mapper.visit m).id2field k = match map_find m.id2field k with
        | some f => some f
        | none => l.find? (fun g => decide (g.id = k)) := by
  induction l with
  | nil =>
    intro m k
    simp only [List.foldl_nil, List.find?_nil]
    cases map_find m.id2field k <;> rfl
  | cons g rest ih =>
    intro m k
    rw [List.foldl_cons, ih (m.visit g) k]
    simp only [field_mapper.visit, map_find_insert]
    cases hk : map_find m.id2field k with
    | some f => rfl
    | none =>
      by_cases hg : g.id = k
      · simp [hg]
      · simp [hg]

theorem identify_fields_find (m : field_mapper) (root : field) (k : identifier_type) :
    map_find (m.identify_fields root).id2field k = match map_find m.id2field k with
      | some f => some f
      | none => (field.visited root).find? (fun g => decide (g.id = k)) := by
  rw [identify_fields_eq_foldl]
  exact visit_all_find _ m k

theorem visit_consistent (m : field_mapper) (g : field) (h : m.consistent) :
    (m.visit g).consistent := by
  obtain ⟨h1, h2, h3⟩ := h
  refine ⟨h1, map_insert_keys_nodup _ _ _ h2, ?_⟩
  intro e he
  rcases map_insert_mem _ _ _ e he with hm | heq
  · exact h3 e hm
  · rw [heq]

theorem visit_all_consistent (l : List field) :
    ∀ m : field_mapper, m.consistent → (l.foldl field_mapper.visit m).consistent := by
  induction l with
  | nil => exact fun m h => h
  | cons g rest ih => exact fun m h => ih (m.visit g) (visit_consistent m g h)

theorem identify_fields_consistent (m : field_mapper) (root : field) (h : m.consistent) :
    (m.identify_fields root).consistent := by
  rw [identify_fields_eq_foldl]
  exact visit_all_consistent _ m h

theorem register_field_consistent (m : field_mapper) (name : String) (id : identifier_type)
    (h : m.consistent) : (m.register_field name id).consistent :=
  ⟨map_insert_keys_nodup _ _ _ h.1, h.2.1, h.2.2⟩

theorem register_field_name_consistent (m : field_mapper) (name : String)
    (h : m.consistent) : (m.register_field_name name).2.consistent := by
  unfold field_mapper.register_field_name
  cases map_find m.str2id name with
  | some id => exact h
  | none => exact register_field_consistent m name m.next_id h

theorem find_register_field_name_consistent (m : field_mapper) (name : String)
    (h : m.consistent) : (m.find_register_field_name name).2.consistent := by
  unfold field_mapper.find_register_field_name
  cases map_find m.str2id name with
  | some id => exact h
  | none => exact register_field_consistent m name m.next_id h

theorem reachable_consistent (m : field_mapper) (h : m.reachable) : m.consistent := by
  induction h with
  | empty => exact ⟨List.nodup_nil, List.nodup_nil, fun e he => by cases he⟩
  | register_field m name id _ ih => exact register_field_consistent m name id ih
  | register_field_name m name _ ih => exact register_field_name_consistent m name ih
  | find_register_field_name m name _ ih => exact find_register_field_name_consistent m name ih
  | identify_fields m root _ ih => exact identify_fields_consistent m root ih

/-! ## Lemmas on the parser factory -/

theorem find_register_field_name_bound (m : field_mapper) (n : String) :
    map_find (m.find_register_field_name n).2.str2id n
      = some (m.find_register_field_name n).1 := by
  unfold field_mapper.find_register_field_name
  cases h : map_find m.str2id n with
  | some id => exact h
  | none => simp [field_mapper.register_field, map_find_insert, h]

theorem find_register_field_name_keeps (m : field_mapper) (n n2 : String)
    (a : identifier_type) (h : map_find m.str2id n2 = some a) :
    map_find (m.find_register_field_name n).2.str2id n2 = some a := by
  unfold field_mapper.find_register_field_name
  cases map_find m.str2id n with
  | some id => exact h
  | none => simp [field_mapper.register_field, map_find_insert, h]

theorem register_field_name_keeps (m : field_mapper) (n n2 : String)
    (a : identifier_type) (h : map_find m.str2id n2 = some a) :
    map_find (m.register_field_name n).2.str2id n2 = some a := by
  unfold field_mapper.register_field_name
  cases map_find m.str2id n with
  | some id => exact h
  | none => simp [field_mapper.register_field, map_find_insert, h]

theorem register_field_name_of_bound (m : field_mapper) (n : String) (a : identifier_type)
    (h : map_find m.str2id n = some a) : (m.register_field_name n).1 = a := by
  unfold field_mapper.register_field_name
  rw [h]

theorem make_node_filler_node_mapper (p : SyntaxParser) (field_name function_name : String) :
    (p.make_node_filler_node field_name function_name).2.mapper
      = (p.mapper.find_register_field_name field_name).2 := by
  unfold SyntaxParser.make_node_filler_node
  simp only
  split
  · rfl
  · split <;> rfl

theorem run_call_keeps (p : SyntaxParser) (c : factory_call) (n : String)
    (a : identifier_type) (h : map_find p.mapper.str2id n = some a) :
    map_find (p.run_call c).mapper.str2id n = some a := by
  cases c with
  | make_block_node filler size name => exact register_field_name_keeps _ _ _ _ h
  | make_node_value_node name => exact find_register_field_name_keeps _ _ _ _ h
  | make_node_filler_node field_name function_name =>
    simp only [SyntaxParser.run_call, make_node_filler_node_mapper]
    exact find_register_field_name_keeps _ _ _ _ h
  | make_node_value_function_node field_name function_name =>
    exact find_register_field_name_keeps _ _ _ _ h

theorem run_calls_keeps (calls : List factory_call) :
    ∀ (p : SyntaxParser) (n : String) (a : identifier_type),
      map_find p.mapper.str2id n = some a →
      map_find (p.run_calls calls).mapper.str2id n = some a := by
  induction calls with
  | nil => exact fun p n a h => h
  | cons c rest ih => exact fun p n a h => ih (p.run_call c) n a (run_call_keeps p c n a h)

theorem block_node_after_binding (p : SyntaxParser) (filler : Option filler_node)
    (size : Nat) (n : String) (a : identifier_type)
    (h : map_find p.mapper.str2id n = some a) :
    (p.make_block_node filler size n).1 = .block_field_node filler size (some a) := by
  unfold SyntaxParser.make_block_node
  simp only [register_field_name_of_bound p.mapper n a h]

theorem is_filler_function_iff (p : SyntaxParser) (name : String) :
    p.is_filler_function name = true ↔ ∃ factory, map_find p.filler_functions name = some factory := by
  unfold SyntaxParser.is_filler_function map_count
  cases map_find p.filler_functions name <;> simp

theorem is_value_function_iff (p : SyntaxParser) (name : String) :
    p.is_value_function name = true ↔ ∃ factory, map_find p.value_functions name = some factory := by
  unfold SyntaxParser.is_value_function map_count
  cases map_find p.value_functions name <;> simp

/-! ## Claims -/

/-- C1: `const_string_node::fill` throws `invalid_field_size` exactly when the
field is narrower than the content, and it returns (a filled field) exactly
when the content fits, in particular when the sizes are equal. -/
theorem const_string_fill_fails_iff (node : const_string_node) (f : field) :
    (node.fill f = .throws .invalid_field_size ↔ f.size < node.value.length) ∧
    ((∃ f1, node.fill f = .value f1) ↔ node.value.length ≤ f.size) ∧
    ((∃ e, node.fill f = .throws e) ↔ f.size < node.value.length) := by
  by_cases h : f.size < node.value.length
  · have hfill : node.fill f = .throws .invalid_field_size := by
      unfold const_string_node.fill
      rw [if_pos h]
    refine ⟨⟨fun _ => h, fun _ => hfill⟩, ⟨?_, fun hle => absurd h (by omega)⟩,
      ⟨fun _ => h, fun _ => ⟨_, hfill⟩⟩⟩
    rintro ⟨f1, hf1⟩
    rw [hfill] at hf1
    cases hf1
  · obtain ⟨f1, h1, _⟩ := const_string_fill_in_range node f (by omega)
    refine ⟨⟨?_, fun hlt => absurd hlt h⟩, ⟨fun _ => by omega, fun _ => ⟨f1, h1⟩⟩,
      ⟨?_, fun hlt => absurd hlt h⟩⟩
    · intro hthrow
      rw [h1] at hthrow
      cases hthrow
    · rintro ⟨e, he⟩
      rw [h1] at he
      cases he

/-- C2: when the content fits, `const_string_node::fill` returns; afterwards
unit `i` of the field is `c[i]` for every `i < c.size()`, every unit at an
index `>= c.size()` reads as before the call, and `size()` is unchanged. -/
theorem const_string_fill_copies (node : const_string_node) (f : field)
    (h : node.value.length ≤ f.size) :
    ∃ f1, node.fill f = .value f1 ∧
      (∀ i (hi : i < node.value.length), f1.get i = .value (node.value.get ⟨i, hi⟩)) ∧
      (∀ j, node.value.length ≤ j → f1.get j = f.get j) ∧
      f1.size = f.size := by
  obtain ⟨f1, h1, h2, _, h4, h5⟩ := const_string_fill_in_range node f h
  exact ⟨f1, h1, h4, h5, h2⟩

/-- Witness of C2: three units written into a compound of a two-unit and a
three-unit block. -/
theorem const_string_fill_copies_witness :
    ∃ f1, const_string_node.fill ⟨[7, 8, 9]⟩
        (.compound 0 [.block 1 ⟨[0, 0]⟩, .block 2 ⟨[4, 5, 6]⟩]) = .value f1 ∧
      (∀ i (hi : i < 3), f1.get i = .value ([7, 8, 9].get ⟨i, hi⟩)) ∧
      (∀ j, 3 ≤ j →
        f1.get j = (field.compound 0 [.block 1 ⟨[0, 0]⟩, .block 2 ⟨[4, 5, 6]⟩]).get j) ∧
      f1.size = (field.compound 0 [.block 1 ⟨[0, 0]⟩, .block 2 ⟨[4, 5, 6]⟩]).size :=
  const_string_fill_copies ⟨[7, 8, 9]⟩
    (.compound 0 [.block 1 ⟨[0, 0]⟩, .block 2 ⟨[4, 5, 6]⟩]) (by decide)

/-- C3, as stated, fails: on a block of two units, `get(2)` and `set(2, 9)`
do not signal `invalid_index` (the code indexes `data` without a check). -/
theorem block_past_end_not_invalid_index :
    ¬ ((block_field_impl.create 2).get 2 = .throws .invalid_index) ∧
    ¬ ((block_field_impl.create 2).set 2 9 = .throws .invalid_index) := by
  decide

/-- C3, amended: `get(i)` returns and `set(i, v)` stores exactly for
`i < size()`; for `i >= size()` neither makes a bounds check nor throws: the
container is indexed past its end, which C++ leaves undefined. -/
theorem block_get_set_unchecked (b : block_field_impl) (i : Nat) (v : value_type) :
    (b.get i = (b.data.get? i).elim .undefined .value) ∧
    ((∃ x, b.get i = .value x) ↔ i < b.size) ∧
    ((∃ b1, b.set i v = .value b1) ↔ i < b.size) ∧
    (b.get i = .undefined ↔ b.size ≤ i) ∧
    (b.set i v = .undefined ↔ b.size ≤ i) ∧
    (∀ e, b.get i ≠ .throws e) ∧ (∀ e, b.set i v ≠ .throws e) := by
  by_cases h : i < b.size
  · have hg := block_get_value b i h
    have hs := block_set_value b i v h
    have hlt : i < b.data.length := h
    refine ⟨?_, ⟨fun _ => h, fun _ => ⟨_, hg⟩⟩, ⟨fun _ => h, fun _ => ⟨_, hs⟩⟩,
      ⟨?_, fun hle => absurd h (by omega)⟩, ⟨?_, fun hle => absurd h (by omega)⟩, ?_, ?_⟩
    · rw [hg, List.get?_eq_get hlt]
      rfl
    · intro hu
      rw [hg] at hu
      cases hu
    · intro hu
      rw [hs] at hu
      cases hu
    · intro e he
      rw [hg] at he
      cases he
    · intro e he
      rw [hs] at he
      cases he
  · have hle : b.size ≤ i := by omega
    have hg := block_get_undefined b i hle
    have hs : b.set i v = .undefined := by
      have hnlt : ¬ i < b.data.length := h
      unfold block_field_impl.set
      rw [if_neg hnlt]
    refine ⟨?_, ⟨?_, fun hlt => absurd hlt h⟩, ⟨?_, fun hlt => absurd hlt h⟩,
      ⟨fun _ => hle, fun _ => hg⟩, ⟨fun _ => hle, fun _ => hs⟩, ?_, ?_⟩
    · rw [hg, List.get?_eq_none.mpr hle]
      rfl
    · rintro ⟨x, hx⟩
      rw [hg] at hx
      cases hx
    · rintro ⟨x, hx⟩
      rw [hs] at hx
      cases hx
    · intro e he
      rw [hg] at he
      cases he
    · intro e he
      rw [hs] at he
      cases he

/-- C4: in a mapper whose table has unique keys (as every `std::map` has),
`find_field(id)` throws exactly when the table `id2field` has no entry for
`id`, and it returns `f` exactly when `(id, f)` is the entry of the table. -/
theorem find_field_fails_iff (m : field_mapper) (id : identifier_type)
    (hkeys : (m.id2field.map Prod.fst).Nodup) :
    ((∃ e, m.find_field id = .throws e) ↔ ∀ f, (id, f) ∉ m.id2field) ∧
    (∀ f, m.find_field id = .value f ↔ (id, f) ∈ m.id2field) := by
  unfold field_mapper.find_field map_at
  cases hfind : map_find m.id2field id with
  | none =>
    have hno := (map_find_none_iff m.id2field id).mp hfind
    refine ⟨⟨fun _ => hno, fun _ => ⟨_, rfl⟩⟩, fun f => ⟨?_, fun hmem => absurd hmem (hno f)⟩⟩
    intro h
    cases h
  | some g =>
    have hmem := map_find_mem m.id2field id g hfind
    refine ⟨⟨?_, fun hno => absurd hmem (hno g)⟩, fun f => ⟨?_, ?_⟩⟩
    · rintro ⟨e, he⟩
      cases he
    · intro h
      cases h
      exact hmem
    · intro hf
      have h2 := map_find_of_mem m.id2field id f hkeys hf
      rw [hfind] at h2
      cases h2
      rfl

/-- Witness of C4: a table with entries for 1 and 4, looked up at 4. -/
theorem find_field_fails_iff_witness :
    ((∃ e, field_mapper.find_field
        ⟨[], [(1, .block 1 ⟨[0]⟩), (4, .block 4 ⟨[5, 6]⟩)], 0⟩ 4 = .throws e) ↔
      ∀ f, (4, f) ∉ [(1, field.block 1 ⟨[0]⟩), (4, field.block 4 ⟨[5, 6]⟩)]) ∧
    (∀ f, field_mapper.find_field
        ⟨[], [(1, .block 1 ⟨[0]⟩), (4, .block 4 ⟨[5, 6]⟩)], 0⟩ 4 = .value f ↔
      (4, f) ∈ [(1, field.block 1 ⟨[0]⟩), (4, field.block 4 ⟨[5, 6]⟩)]) :=
  find_field_fails_iff ⟨[], [(1, .block 1 ⟨[0]⟩), (4, .block 4 ⟨[5, 6]⟩)], 0⟩ 4 (by decide)

/-- C5: after `identify_fields(root)` on a mapper built by the public
members, `find_field(g.id())` returns, for every field `g` visited by
`root.accept_visitor`, a field whose `id()` is `g.id()`; and every entry of
the table `id2field` binds a key `k` to a field whose `id()` is `k`. -/
theorem identify_fields_binds_ids (m : field_mapper) (root : field) (h : m.reachable) :
    (∀ g ∈ field.visited root,
      ∃ f, (m.identify_fields root).find_field g.id = .value f ∧ f.id = g.id) ∧
    (∀ k f, (k, f) ∈ (m.identify_fields root).id2field → f.id = k) := by
  have hc := identify_fields_consistent m root (reachable_consistent m h)
  constructor
  · intro g hg
    have hfind := identify_fields_find m root g.id
    unfold field_mapper.find_field map_at
    cases hbefore : map_find m.id2field g.id with
    | some f =>
      rw [hbefore] at hfind
      rw [hfind]
      exact ⟨f, rfl, hc.2.2 (g.id, f) (map_find_mem _ _ _ hfind)⟩
    | none =>
      rw [hbefore] at hfind
      simp only at hfind
      cases hfirst : (field.visited root).find? (fun x => decide (x.id = g.id)) with
      | none =>
        have hall := List.find?_eq_none.mp hfirst g hg
        simp at hall
      | some f =>
        rw [hfirst] at hfind
        rw [hfind]
        exact ⟨f, rfl, hc.2.2 (g.id, f) (map_find_mem _ _ _ hfind)⟩
  · intro k f hmem
    exact hc.2.2 (k, f) hmem

/-- Witness of C5: a compound with two blocks identified in the empty
mapper. -/
theorem identify_fields_binds_ids_witness :
    field_mapper.reachable field_mapper.empty ∧
    ((∀ g ∈ field.visited (.compound 1 [.block 2 ⟨[0]⟩, .block 3 ⟨[0, 0]⟩]),
      ∃ f, (field_mapper.empty.identify_fields
          (.compound 1 [.block 2 ⟨[0]⟩, .block 3 ⟨[0, 0]⟩])).find_field g.id = .value f ∧
        f.id = g.id) ∧
    (∀ k f, (k, f) ∈ (field_mapper.empty.identify_fields
        (.compound 1 [.block 2 ⟨[0]⟩, .block 3 ⟨[0, 0]⟩])).id2field → f.id = k)) :=
  ⟨.empty, identify_fields_binds_ids field_mapper.empty
    (.compound 1 [.block 2 ⟨[0]⟩, .block 3 ⟨[0, 0]⟩]) .empty⟩

/-- C6, as stated, fails: two trees each hold a field with identifier 7;
after `identify_fields` on the first and then on the second, `find_field(7)`
returns the field of the first tree, not the field of the second. -/
theorem second_pass_returns_first_tree :
    ((field_mapper.empty.identify_fields (.block 7 ⟨[1]⟩)).identify_fields
        (.block 7 ⟨[2]⟩)).find_field 7 = .value (.block 7 ⟨[1]⟩) ∧
    ((field_mapper.empty.identify_fields (.block 7 ⟨[1]⟩)).identify_fields
        (.block 7 ⟨[2]⟩)).find_field 7 ≠ .value (.block 7 ⟨[2]⟩) := by
  have h : ((field_mapper.empty.identify_fields (.block 7 ⟨[1]⟩)).identify_fields
      (.block 7 ⟨[2]⟩)).find_field 7 = .value (.block 7 ⟨[1]⟩) := by
    simp [field_mapper.find_field, map_at, identify_fields_find, field_mapper.empty,
      map_find, field.visited, field.id]
  refine ⟨h, ?_⟩
  rw [h]
  intro hne
  simp at hne

/-- C6, amended: `identify_fields` never replaces an entry (`std::map::insert`
keeps an existing key). If the mapper has no entry for `k` and `g1` is the
first field of `root1` in visit order with identifier `k`, then after
`identify_fields(root1)` followed by `identify_fields(root2)` the call
`find_field(k)` returns `g1`, whatever `root2` holds; a field of `root2` is
returned only for an identifier without an entry before the second call. -/
theorem identify_fields_keeps_first (m : field_mapper) (root1 root2 : field)
    (k : identifier_type) (g1 : field)
    (hnew : ∀ f, (k, f) ∉ m.id2field)
    (hfirst : (field.visited root1).find? (fun g => decide (g.id = k)) = some g1) :
    ((m.identify_fields root1).identify_fields root2).find_field k = .value g1 ∧
    g1 ∈ field.visited root1 ∧ g1.id = k ∧
    (∀ k2 g2, (∀ f, (k2, f) ∉ (m.identify_fields root1).id2field) →
      (field.visited root2).find? (fun g => decide (g.id = k2)) = some g2 →
      ((m.identify_fields root1).identify_fields root2).find_field k2 = .value g2) := by
  have hnone := (map_find_none_iff m.id2field k).mpr hnew
  have hpass1 : map_find (m.identify_fields root1).id2field k = some g1 := by
    rw [identify_fields_find, hnone]
    exact hfirst
  refine ⟨?_, List.mem_of_find?_eq_some hfirst, ?_, ?_⟩
  · unfold field_mapper.find_field map_at
    rw [identify_fields_find, hpass1]
  · have hp := List.find?_some hfirst
    simpa using hp
  · intro k2 g2 hno h2
    have hnone2 := (map_find_none_iff _ k2).mpr hno
    unfold field_mapper.find_field map_at
    rw [identify_fields_find, hnone2]
    simp only [h2]

/-- Witness of C6 amended: the two one-block trees on the empty mapper. -/
theorem identify_fields_keeps_first_witness :
    ((field_mapper.empty.identify_fields (.block 7 ⟨[1]⟩)).identify_fields
        (.compound 8 [.block 7 ⟨[2]⟩])).find_field 7 = .value (.block 7 ⟨[1]⟩) ∧
    field.block 7 ⟨[1]⟩ ∈ field.visited (.block 7 ⟨[1]⟩) ∧ (field.block 7 ⟨[1]⟩).id = 7 ∧
    (∀ k2 g2,
      (∀ f, (k2, f) ∉ (field_mapper.empty.identify_fields (.block 7 ⟨[1]⟩)).id2field) →
      (field.visited (.compound 8 [.block 7 ⟨[2]⟩])).find? (fun g => decide (g.id = k2))
        = some g2 →
      ((field_mapper.empty.identify_fields (.block 7 ⟨[1]⟩)).identify_fields
        (.compound 8 [.block 7 ⟨[2]⟩])).find_field k2 = .value g2) :=
  identify_fields_keeps_first field_mapper.empty (.block 7 ⟨[1]⟩)
    (.compound 8 [.block 7 ⟨[2]⟩]) 7 (.block 7 ⟨[1]⟩)
    (fun f hf => by cases hf) rfl

/-- C7: `register_field(n, b)` leaves `n` bound to `a` when `n` is already
bound to `a`, binds `n` to `b` when `n` is unbound, and changes the binding
of no other name (nor the table `id2field`). -/
theorem register_field_permanent (m : field_mapper) (n : String) (b : identifier_type) :
    (∀ a, map_find m.str2id n = some a →
      map_find (m.register_field n b).str2id n = some a) ∧
    (map_find m.str2id n = none → map_find (m.register_field n b).str2id n = some b) ∧
    (∀ n2, n2 ≠ n → map_find (m.register_field n b).str2id n2 = map_find m.str2id n2) ∧
    (m.register_field n b).id2field = m.id2field := by
  refine ⟨?_, ?_, ?_, rfl⟩
  · intro a ha
    simp only [field_mapper.register_field, map_find_insert, ha]
  · intro hnone
    simp only [field_mapper.register_field, map_find_insert, hnone, if_true]
  · intro n2 hne
    simp only [field_mapper.register_field, map_find_insert]
    have hne2 : ¬ n = n2 := fun h => hne h.symm
    cases map_find m.str2id n2 with
    | some x => rfl
    | none => simp [hne2]

/-- Witness of C7: `"len"` is bound to 3 and `"crc"` is unbound. -/
theorem register_field_permanent_witness :
    map_find ((field_mapper.mk [("len", 3)] [] 4).register_field "len" 9).str2id "len"
      = some 3 ∧
    map_find ((field_mapper.mk [("len", 3)] [] 4).register_field "crc" 9).str2id "crc"
      = some 9 ∧
    map_find ((field_mapper.mk [("len", 3)] [] 4).register_field "crc" 9).str2id "len"
      = some 3 :=
  ⟨(register_field_permanent ⟨[("len", 3)], [], 4⟩ "len" 9).1 3 (by decide),
   (register_field_permanent ⟨[("len", 3)], [], 4⟩ "crc" 9).2.1 (by decide),
   ((register_field_permanent ⟨[("len", 3)], [], 4⟩ "crc" 9).2.2.1 "len" (by decide)).trans
     (by decide)⟩

/-- C8: a reference to the name `n` built first (`make_node_value_node(n)`
or `make_node_filler_node(n, fn)`) and the block declaration named `n` built
after any further factory calls carry the same identifier. -/
theorem forward_reference_same_identifier (p : SyntaxParser) (n fn : String)
    (calls : List factory_call) (filler : Option filler_node) (size : Nat) :
    (p.make_node_value_node n).1
      = .node_value_node (p.mapper.find_register_field_name n).1 ∧
    (((p.make_node_value_node n).2.run_calls calls).make_block_node filler size n).1
      = .block_field_node filler size (some (p.mapper.find_register_field_name n).1) ∧
    (∀ factory, map_find p.filler_functions fn = some factory →
      (p.make_node_filler_node n fn).1
        = .value (some (factory (p.mapper.find_register_field_name n).1))) ∧
    (∀ factory, map_find p.filler_functions fn = none →
      map_find p.value_functions fn = some factory →
      (p.make_node_filler_node n fn).1
        = .value (some (.function_value_filler_node
            (factory (p.mapper.find_register_field_name n).1)))) ∧
    (((p.make_node_filler_node n fn).2.run_calls calls).make_block_node filler size n).1
      = .block_field_node filler size (some (p.mapper.find_register_field_name n).1) := by
  refine ⟨rfl, ?_, ?_, ?_, ?_⟩
  · apply block_node_after_binding
    apply run_calls_keeps
    exact find_register_field_name_bound p.mapper n
  · intro factory hf
    simp [SyntaxParser.make_node_filler_node, SyntaxParser.is_filler_function, map_count,
      SyntaxParser.allocate_filler_function, map_at, hf, outcome.and_then]
  · intro factory hf hv
    simp [SyntaxParser.make_node_filler_node, SyntaxParser.is_filler_function,
      SyntaxParser.is_value_function, map_count, SyntaxParser.allocate_value_function,
      map_at, hf, hv, outcome.and_then]
  · apply block_node_after_binding
    apply run_calls_keeps
    rw [make_node_filler_node_mapper]
    exact find_register_field_name_bound p.mapper n

/-- Witness of C8: on the parser of the constructor, `crc32` of `"body"` is
referenced, two other names are used, then the block `"body"` is declared. -/
theorem forward_reference_same_identifier_witness :
    (SyntaxParser.create.make_node_filler_node "body" "crc32").1
      = .value (some (.function_value_filler_node (.crc32_function 0))) ∧
    (((SyntaxParser.create.make_node_filler_node "body" "crc32").2.run_calls
        [.make_block_node none 4 "head", .make_node_value_node "tail"]).make_block_node
          none 8 "body").1
      = .block_field_node none 8 (some 0) :=
  ⟨(forward_reference_same_identifier SyntaxParser.create "body" "crc32"
      [.make_block_node none 4 "head", .make_node_value_node "tail"] none 8).2.2.2.1
      value_node.crc32_function rfl rfl,
   (forward_reference_same_identifier SyntaxParser.create "body" "crc32"
      [.make_block_node none 4 "head", .make_node_value_node "tail"] none 8).2.2.2.2⟩

/-- C9, the code at the failing input: for a function name registered neither
as a filling nor as a value function, `make_node_filler_node` returns a null
pointer instead of failing, while `make_node_value_function_node` throws
`std::out_of_range`. -/
theorem unregistered_function_null_node (p : SyntaxParser) (field_name fn : String)
    (hfiller : p.is_filler_function fn = false) (hvalue : p.is_value_function fn = false) :
    (p.make_node_filler_node field_name fn).1 = .value none ∧
    (p.make_node_value_function_node field_name fn).1 = .throws .out_of_range := by
  have hv : map_find p.value_functions fn = none := by
    cases h : map_find p.value_functions fn with
    | none => rfl
    | some factory =>
      have := (is_value_function_iff p fn).mpr ⟨factory, h⟩
      rw [hvalue] at this
      cases this
  have hf : map_find p.filler_functions fn = none := by
    cases h : map_find p.filler_functions fn with
    | none => rfl
    | some factory =>
      have := (is_filler_function_iff p fn).mpr ⟨factory, h⟩
      rw [hfiller] at this
      cases this
  constructor
  · simp [SyntaxParser.make_node_filler_node, SyntaxParser.is_filler_function,
      SyntaxParser.is_value_function, map_count, hf, hv]
  · simp [SyntaxParser.make_node_value_function_node, SyntaxParser.allocate_value_function,
      map_at, hv, outcome.and_then]

/-- Witness of C9: the key `"sha256"` on the parser of the constructor. -/
theorem unregistered_function_null_node_witness :
    (SyntaxParser.create.make_node_filler_node "data" "sha256").1 = .value none ∧
    (SyntaxParser.create.make_node_value_function_node "data" "sha256").1
      = .throws .out_of_range :=
  unregistered_function_null_node SyntaxParser.create "data" "sha256" (by decide) (by decide)

/-- C10: `parse` throws `parse_error` (without running `check_constraints`)
exactly when `yyparse` returns non-zero or no script root is set after it;
otherwise it runs `check_constraints` of the script root exactly once and its
result is the result of that call. So, `check_constraints` itself not
throwing `parse_error`, `parse` fails with `parse_error` exactly in the first
case and never after running `check_constraints`. -/
theorem parse_fails_iff
    (yyparse : parser_globals → SyntaxParser → Int × parser_globals × SyntaxParser)
    (check_constraints : script → outcome Unit) (p : SyntaxParser) (input : String) :
    (((p.parse yyparse check_constraints input).result = .throws .parse_error ∧
        (p.parse yyparse check_constraints input).checked = []) ↔
      ((yyparse ⟨some input, 1, true⟩ p).1 ≠ 0 ∨
        (yyparse ⟨some input, 1, true⟩ p).2.2.script_root = none)) ∧
    (∀ root, (yyparse ⟨some input, 1, true⟩ p).1 = 0 →
      (yyparse ⟨some input, 1, true⟩ p).2.2.script_root = some root →
      (p.parse yyparse check_constraints input).checked = [root] ∧
      (p.parse yyparse check_constraints input).result = check_constraints root) ∧
    ((∀ root, check_constraints root ≠ .throws .parse_error) →
      (((p.parse yyparse check_constraints input).result = .throws .parse_error ↔
        ((yyparse ⟨some input, 1, true⟩ p).1 ≠ 0 ∨
          (yyparse ⟨some input, 1, true⟩ p).2.2.script_root = none)) ∧
      ((p.parse yyparse check_constraints input).result = .throws .parse_error →
        (p.parse yyparse check_constraints input).checked = []))) := by
  unfold SyntaxParser.parse
  simp only
  by_cases hrc : (yyparse ⟨some input, 1, true⟩ p).1 = 0
  · cases hroot : (yyparse ⟨some input, 1, true⟩ p).2.2.script_root with
    | none => simp [hrc]
    | some root =>
      simp only [hrc, ne_eq, not_true_eq_false, if_false, false_or]
      refine ⟨?_, ?_, ?_⟩
      · simp
      · intro root2 _ h2
        cases h2
        exact ⟨rfl, rfl⟩
      · intro hcheck
        have hne := hcheck root
        simp [hne]
  · simp [hrc]

/-- Witness of C10: a grammar parser that sets an empty script and returns 0,
with a constraint check that passes. -/
theorem parse_fails_iff_witness :
    (SyntaxParser.create.parse (fun g q => (0, g, q.set_script (some ⟨[]⟩)))
        (fun _ => .value ()) "block<4>;").checked = [⟨[]⟩] ∧
    (SyntaxParser.create.parse (fun g q => (0, g, q.set_script (some ⟨[]⟩)))
        (fun _ => .value ()) "block<4>;").result = .value () :=
  (parse_fails_iff (fun g q => (0, g, q.set_script (some ⟨[]⟩))) (fun _ => .value ())
    SyntaxParser.create "block<4>;").2.1 ⟨[]⟩ rfl rfl

/-! ## Lemmas on compound fields and the root field -/

theorem size_sum_append (xs ys : List field) :
    field.size_sum (xs ++ ys) = field.size_sum xs + field.size_sum ys := by
  induction xs with
  | nil => simp [field.size_sum]
  | cons x rest ih =>
    rw [List.cons_append]
    simp only [field.size_sum]
    rw [ih]
    omega

theorem add_fields_foldl (children : List field) :
    ∀ c : compound_field_impl,
      children.foldl compound_field_impl.add_field c
        = ⟨c.fields ++ children, c.total_size + field.size_sum children⟩ := by
  induction children with
  | nil =>
    intro c
    simp [field.size_sum]
  | cons x rest ih =>
    intro c
    rw [List.foldl_cons, ih]
    simp only [compound_field_impl.add_field, field.size_sum, List.append_assoc,
      List.singleton_append, Nat.add_assoc]

theorem from_range_eq (children : List field) :
    compound_field_impl.from_range children = ⟨children, field.size_sum children⟩ := by
  unfold compound_field_impl.from_range
  rw [add_fields_foldl]
  simp [compound_field_impl.create]

theorem allocate_fields_in_order
    (allocate : field_node → field_mapper → outcome (field × field_mapper))
    (halloc : ∀ d m, ∃ r, allocate d m = .value r) (decls : List field_node) :
    ∀ (m : field_mapper) (fields : List field),
      ∃ children,
        SyntaxParser.allocate_fields allocate decls m fields
          = .value (fields ++ children, SyntaxParser.mapper_after allocate decls m) ∧
        children.length = decls.length ∧
        ∀ i (h : i < decls.length),
          ∃ r, allocate (decls.get ⟨i, h⟩)
              (SyntaxParser.mapper_after allocate (decls.take i) m) = .value r ∧
            children.get? i = some r.1 := by
  induction decls with
  | nil =>
    intro m fields
    refine ⟨[], ?_, rfl, ?_⟩
    · simp [SyntaxParser.allocate_fields, SyntaxParser.mapper_after]
    · intro i h
      simp at h
  | cons d rest ih =>
    intro m fields
    obtain ⟨r, hr⟩ := halloc d m
    obtain ⟨children, h1, h2, h3⟩ := ih r.2 (fields ++ [r.1])
    refine ⟨r.1 :: children, ?_, ?_, ?_⟩
    · simp only [SyntaxParser.allocate_fields, SyntaxParser.mapper_after, hr, h1,
        List.append_assoc, List.singleton_append]
    · simp [h2]
    · intro i h
      cases i with
      | zero =>
        refine ⟨r, ?_, rfl⟩
        simpa [SyntaxParser.mapper_after] using hr
      | succ j =>
        have hj : j < rest.length := by simpa using h
        obtain ⟨r2, k1, k2⟩ := h3 j hj
        refine ⟨r2, ?_, ?_⟩
        · simpa [SyntaxParser.mapper_after, hr] using k1
        · simpa using k2

/-! ## Claims, continued -/

/-- C11: `get_root_field()` throws `parse_error` when no script root is set.
Otherwise, the `allocate` calls returning, it returns a compound field built
without a name whose children are, in order, the results of
`allocate(mapper)` on the top-level declarations: one child per declaration,
child `i` from declaration `i`, allocated with the mapper the earlier
declarations left. -/
theorem get_root_field_children
    (allocate : field_node → field_mapper → outcome (field × field_mapper))
    (unnamed_id : identifier_type) (p : SyntaxParser) :
    (p.script_root = none →
      SyntaxParser.get_root_field allocate unnamed_id p = .throws .parse_error) ∧
    (∀ root, p.script_root = some root → (∀ d m, ∃ r, allocate d m = .value r) →
      ∃ children,
        SyntaxParser.get_root_field allocate unnamed_id p
          = .value (.compound unnamed_id children,
              { p with mapper := SyntaxParser.mapper_after allocate root.fields p.mapper }) ∧
        children.length = root.fields.length ∧
        ∀ i (h : i < root.fields.length),
          ∃ r, allocate (root.fields.get ⟨i, h⟩)
              (SyntaxParser.mapper_after allocate (root.fields.take i) p.mapper) = .value r ∧
            children.get? i = some r.1) := by
  constructor
  · intro hnone
    unfold SyntaxParser.get_root_field
    rw [hnone]
  · intro root hroot halloc
    obtain ⟨children, h1, h2, h3⟩ :=
      allocate_fields_in_order allocate halloc root.fields p.mapper []
    refine ⟨children, ?_, h2, h3⟩
    unfold SyntaxParser.get_root_field
    rw [hroot]
    simp only [h1, List.nil_append, from_range_eq]

/-- Witness of C11: a script of two block declarations, each allocated as a
zeroed block of its size. -/
theorem get_root_field_children_witness :
    ∃ children after,
      SyntaxParser.get_root_field
          (fun d m => match d with
            | .block_field_node _ size id =>
              .value (.block (id.getD 0) (block_field_impl.create size), m))
          0 (SyntaxParser.create.set_script
            (some ⟨[.block_field_node none 2 (some 5), .block_field_node none 3 none]⟩))
        = .value (.compound 0 children, after) ∧
      children.length = 2 :=
  have h := (get_root_field_children
    (fun d m => match d with
      | .block_field_node _ size id =>
        .value (.block (id.getD 0) (block_field_impl.create size), m))
    0 (SyntaxParser.create.set_script
      (some ⟨[.block_field_node none 2 (some 5), .block_field_node none 3 none]⟩))).2
    ⟨[.block_field_node none 2 (some 5), .block_field_node none 3 none]⟩ rfl
    (fun d _ => match d with
      | .block_field_node _ _ _ => ⟨_, rfl⟩)
  h.elim (fun children hc => ⟨children, _, hc.1, hc.2.1⟩)

/-- C12: a compound built from any list of children, by the constructor from
a range or by repeated `add_field`, has `size()` (the cached `total_size`)
equal to the sum of the sizes of its children; `add_field` keeps this
equality, and the field that owns the compound has the same size. -/
theorem compound_size_is_sum (children : List field) :
    (compound_field_impl.from_range children).size = field.size_sum children ∧
    (compound_field_impl.from_range children).fields = children ∧
    (children.foldl compound_field_impl.add_field compound_field_impl.create).size
      = field.size_sum
          (children.foldl compound_field_impl.add_field compound_field_impl.create).fields ∧
    (∀ (c : compound_field_impl) (child : field), c.size = field.size_sum c.fields →
      (c.add_field child).size = field.size_sum (c.add_field child).fields) ∧
    (∀ identifier, (field.compound identifier
        (compound_field_impl.from_range children).fields).size
      = (compound_field_impl.from_range children).size) := by
  refine ⟨?_, ?_, ?_, ?_, ?_⟩
  · rw [from_range_eq]
    rfl
  · rw [from_range_eq]
  · rw [add_fields_foldl]
    simp [compound_field_impl.create, compound_field_impl.size]
  · intro c child hc
    unfold compound_field_impl.size at hc
    simp only [compound_field_impl.add_field, compound_field_impl.size, size_sum_append,
      field.size_sum, hc, Nat.add_zero]
  · intro identifier
    rw [from_range_eq]
    simp [field.size, compound_field_impl.size]

/-- Witness of C12: a block is added to a compound of two blocks. -/
theorem compound_size_is_sum_witness :
    (compound_field_impl.add_field
        (compound_field_impl.from_range [.block 1 ⟨[0, 0]⟩, .block 2 ⟨[0, 0, 0]⟩])
        (.block 3 ⟨[0, 0, 0, 0]⟩)).size = 9 :=
  ((compound_size_is_sum []).2.2.2.1
    (compound_field_impl.from_range [.block 1 ⟨[0, 0]⟩, .block 2 ⟨[0, 0, 0]⟩])
    (.block 3 ⟨[0, 0, 0, 0]⟩) (by decide)).trans (by decide)

/-- C13: on a freshly constructed parser `is_filler_function(s)` holds exactly
for `"md5"` and `"sha1"`, `is_value_function(s)` exactly for `"size"`,
`"count"` and `"crc32"`, and no key is registered as both kinds. -/
theorem fresh_parser_registry (s : String) :
    (SyntaxParser.create.is_filler_function s = true ↔ s = "md5" ∨ s = "sha1") ∧
    (SyntaxParser.create.is_value_function s = true ↔
      s = "size" ∨ s = "count" ∨ s = "crc32") ∧
    ¬ (SyntaxParser.create.is_filler_function s = true ∧
        SyntaxParser.create.is_value_function s = true) := by
  have hf : SyntaxParser.create.is_filler_function s = true ↔ s = "md5" ∨ s = "sha1" := by
    simp only [SyntaxParser.is_filler_function, SyntaxParser.create,
      SyntaxParser.register_filler_function, SyntaxParser.register_value_function,
      map_insert, map_find, map_count]
    by_cases h1 : "md5" = s
    · subst h1
      simp
    · by_cases h2 : "sha1" = s
      · subst h2
        simp
      · have h1b : ¬ s = "md5" := fun h => h1 h.symm
        have h2b : ¬ s = "sha1" := fun h => h2 h.symm
        simp [map_find, h1, h2, h1b, h2b]
  have hv : SyntaxParser.create.is_value_function s = true ↔
      s = "size" ∨ s = "count" ∨ s = "crc32" := by
    simp only [SyntaxParser.is_value_function, SyntaxParser.create,
      SyntaxParser.register_filler_function, SyntaxParser.register_value_function,
      map_insert, map_find, map_count]
    by_cases h1 : "size" = s
    · subst h1
      simp
    · by_cases h2 : "count" = s
      · subst h2
        simp [map_find]
      · by_cases h3 : "crc32" = s
        · subst h3
          simp [map_find]
        · have h1b : ¬ s = "size" := fun h => h1 h.symm
          have h2b : ¬ s = "count" := fun h => h2 h.symm
          have h3b : ¬ s = "crc32" := fun h => h3 h.symm
          simp [map_find, h1, h2, h3, h1b, h2b, h3b]
  refine ⟨hf, hv, ?_⟩
  rintro ⟨h1, h2⟩
  rw [hf] at h1
  rw [hv] at h2
  rcases h1 with h1 | h1 <;> subst h1 <;> simp at h2

/-! ## Lemmas on visit order and on sequences of writes -/

theorem find_first_of_split (pre post : List field) (g : field) (k : identifier_type)
    (hg : g.id = k) (hpre : ∀ x ∈ pre, x.id ≠ k) :
    (pre ++ g :: post).find? (fun x => decide (x.id = k)) = some g := by
  induction pre with
  | nil => simp [hg]
  | cons x rest ih =>
    have hx : ¬ x.id = k := hpre x (List.mem_cons_self _ _)
    have hrest : ∀ y ∈ rest, y.id ≠ k := fun y hy => hpre y (List.mem_cons_of_mem _ hy)
    simp only [List.cons_append, List.find?_cons, hx, decide_False]
    exact ih hrest

theorem block_set_size (b b1 : block_field_impl) (i : Nat) (v : value_type)
    (h : b.set i v = .value b1) : b1.size = b.size := by
  unfold block_field_impl.set at h
  by_cases hlt : i < b.data.length
  · rw [if_pos hlt] at h
    cases h
    simp [block_field_impl.size]
  · rw [if_neg hlt] at h
    cases h

theorem block_set_all_size (calls : List (Nat × value_type)) :
    ∀ b b1 : block_field_impl, b.set_all calls = .value b1 → b1.size = b.size := by
  induction calls with
  | nil =>
    intro b b1 h
    simp only [block_field_impl.set_all] at h
    cases h
    rfl
  | cons c rest ih =>
    intro b b1 h
    simp only [block_field_impl.set_all] at h
    cases hset : b.set c.1 c.2 with
    | value b0 =>
      rw [hset] at h
      rw [ih b0 b1 h, block_set_size b b0 c.1 c.2 hset]
    | throws e =>
      rw [hset] at h
      cases h
    | undefined =>
      rw [hset] at h
      cases h

theorem block_set_all_in_range (calls : List (Nat × value_type)) :
    ∀ b : block_field_impl, (∀ c ∈ calls, c.1 < b.size) →
      ∃ b1, b.set_all calls = .value b1 := by
  induction calls with
  | nil => exact fun b _ => ⟨b, rfl⟩
  | cons c rest ih =>
    intro b h
    have hc : c.1 < b.size := h c (List.mem_cons_self _ _)
    have hset := block_set_value b c.1 c.2 hc
    have hsize : (block_field_impl.mk (b.data.set c.1 c.2)).size = b.size := by
      simp [block_field_impl.size]
    obtain ⟨b1, h1⟩ := ih ⟨b.data.set c.1 c.2⟩
      (fun x hx => by rw [hsize]; exact h x (List.mem_cons_of_mem _ hx))
    exact ⟨b1, by simp only [block_field_impl.set_all, hset, h1]⟩

/-- C14, as stated, fails: two clones with identifier 7 are visited in one
`identify_fields`; `find_field(7)` returns the first clone, not the last. -/
theorem repeated_identifier_returns_first :
    (field_mapper.empty.identify_fields
        (.compound 1 [.block 7 ⟨[1]⟩, .block 7 ⟨[2]⟩])).find_field 7
      = .value (.block 7 ⟨[1]⟩) ∧
    (field_mapper.empty.identify_fields
        (.compound 1 [.block 7 ⟨[1]⟩, .block 7 ⟨[2]⟩])).find_field 7
      ≠ .value (.block 7 ⟨[2]⟩) := by
  have h : (field_mapper.empty.identify_fields
      (.compound 1 [.block 7 ⟨[1]⟩, .block 7 ⟨[2]⟩])).find_field 7
        = .value (.block 7 ⟨[1]⟩) := by
    simp [field_mapper.find_field, map_at, identify_fields_find, field_mapper.empty,
      map_find, field.visited, field.visited_children, field.id]
  refine ⟨h, ?_⟩
  rw [h]
  intro hne
  simp at hne

/-- C14, amended: identifier collisions are first-wins. When several fields
visited during one `identify_fields(root)` carry the identifier `k` and the
mapper had no entry for `k`, `find_field(k)` afterwards returns the first of
them in visit order; a later visit leaves the earlier binding as it is
(`std::map::insert` does not overwrite). -/
theorem identify_fields_first_wins (m : field_mapper) (root : field) (k : identifier_type)
    (pre post : List field) (g : field)
    (hnew : ∀ f, (k, f) ∉ m.id2field)
    (hsplit : field.visited root = pre ++ g :: post)
    (hg : g.id = k) (hpre : ∀ x ∈ pre, x.id ≠ k) :
    (m.identify_fields root).find_field k = .value g ∧
    (∀ (m1 : field_mapper) (f later : field), m1.find_field k = .value f →
      (m1.visit later).find_field k = .value f) := by
  constructor
  · have hnone := (map_find_none_iff m.id2field k).mpr hnew
    unfold field_mapper.find_field map_at
    rw [identify_fields_find, hnone, hsplit]
    simp only [find_first_of_split pre post g k hg hpre]
  · intro m1 f later hf
    unfold field_mapper.find_field map_at at hf ⊢
    simp only [field_mapper.visit, map_find_insert]
    cases hfind : map_find m1.id2field k with
    | some x =>
      rw [hfind] at hf
      exact hf
    | none =>
      rw [hfind] at hf
      cases hf

/-- Witness of C14 amended: the two clones with identifier 7. -/
theorem identify_fields_first_wins_witness :
    (field_mapper.empty.identify_fields
        (.compound 1 [.block 7 ⟨[1]⟩, .block 7 ⟨[2]⟩])).find_field 7
      = .value (.block 7 ⟨[1]⟩) :=
  (identify_fields_first_wins field_mapper.empty
    (.compound 1 [.block 7 ⟨[1]⟩, .block 7 ⟨[2]⟩]) 7
    [.compound 1 [.block 7 ⟨[1]⟩, .block 7 ⟨[2]⟩]] [.block 7 ⟨[2]⟩] (.block 7 ⟨[1]⟩)
    (fun f hf => by cases hf) rfl rfl
    (fun x hx => by
      rw [List.mem_singleton] at hx
      rw [hx]
      decide)).1

/-- C15: a block constructed with size `n` has `size() == n`, and so has the
block after any sequence of `set` calls with indices below `n`, which all
return; on it, for every `i < n`, `set(i, v)` returns, `get(i)` then returns
`v`, `get(j)` is unchanged for every other `j < n`, and the size is still
`n`. Whatever the indices, a sequence of `set` calls that returns leaves the
size unchanged. -/
theorem block_fixed_size_array (n : Nat) (calls : List (Nat × value_type))
    (hcalls : ∀ c ∈ calls, c.1 < n) :
    (block_field_impl.create n).size = n ∧
    (∀ (others : List (Nat × value_type)) (b : block_field_impl),
      (block_field_impl.create n).set_all others = .value b → b.size = n) ∧
    ∃ b, (block_field_impl.create n).set_all calls = .value b ∧ b.size = n ∧
      ∀ i v, i < n →
        ∃ b1, b.set i v = .value b1 ∧ b1.size = n ∧ b1.get i = .value v ∧
          ∀ j, j ≠ i → j < n → b1.get j = b.get j := by
  have hcreate : (block_field_impl.create n).size = n := by
    simp [block_field_impl.create, block_field_impl.size]
  refine ⟨hcreate, ?_, ?_⟩
  · intro others b hb
    rw [block_set_all_size others _ b hb, hcreate]
  · obtain ⟨b, hb⟩ := block_set_all_in_range calls (block_field_impl.create n)
      (fun c hc => by rw [hcreate]; exact hcalls c hc)
    have hsize : b.size = n := by rw [block_set_all_size calls _ b hb, hcreate]
    refine ⟨b, hb, hsize, ?_⟩
    intro i v hi
    have hib : i < b.size := by rw [hsize]; exact hi
    refine ⟨⟨b.data.set i v⟩, block_set_value b i v hib, ?_, ?_, ?_⟩
    · rw [← hsize]
      simp [block_field_impl.size]
    · rw [block_get_set]
      simp [hib]
    · intro j hji _
      rw [block_get_set]
      simp [hji]

/-- Witness of C15: a block of four units after three writes. -/
theorem block_fixed_size_array_witness :
    (block_field_impl.create 4).size = 4 ∧
    ∃ b, (block_field_impl.create 4).set_all [(0, 7), (3, 9), (0, 8)] = .value b ∧
      b.size = 4 ∧
      ∀ i v, i < 4 →
        ∃ b1, b.set i v = .value b1 ∧ b1.size = 4 ∧ b1.get i = .value v ∧
          ∀ j, j ≠ i → j < 4 → b1.get j = b.get j :=
  have h := block_fixed_size_array 4 [(0, 7), (3, 9), (0, 8)] (by decide)
  ⟨h.1, h.2.2⟩

/-! ## Lemmas on numeric constants -/

theorem double_to_float_exact_below (v : Nat) (h : v < 2 ^ 24) :
    double_to_float v = some v := by
  have hs : float_shift (104 + 1) v = 0 := by
    rw [float_shift, if_pos h]
  have h24 : v < 16777216 := by
    norm_num at h
    exact h
  have hlt : v < 340282366920938463463374607431768211456 := by omega
  unfold double_to_float
  simp only [hs]
  simp [Nat.mod_one, hlt]

/-- C16, the code at the failing inputs: the constant 16777217 passes through
the `float` parameter of the constructor and `eval` returns 16777216; the
constant 3735928559 evaluates to 3735928576. A constant below `2 ^ 24` such
as 16777215 is evaluated exactly. -/
theorem const_value_narrowed_to_float :
    (SyntaxParser.create.make_const_value_node 16777217).1
      = .const_value ⟨some 16777216⟩ ∧
    (const_value_node.create 16777217).eval = some 16777216 ∧
    (const_value_node.create 16777217).eval ≠ some 16777217 ∧
    (const_value_node.create 3735928559).eval = some 3735928576 ∧
    (const_value_node.create 3735928559).eval ≠ some 3735928559 ∧
    (const_value_node.create 16777215).eval = some 16777215 := by
  decide

/-- C17: in `make_node_filler_node(field_name, fn)`, when `fn` is a registered
filling function the result is the factory of that filling function applied
to the identifier of `field_name`; otherwise, when `fn` is a registered value
function, it is the value-derived filler that wraps the factory of that value
function applied to the same identifier; a key registered as both kinds is
treated as a filling function. The identifier is the one `field_name` is
bound to after the call. -/
theorem make_node_filler_node_dispatch (p : SyntaxParser) (field_name fn : String) :
    (p.is_filler_function fn = true →
      ∃ factory, map_at p.filler_functions fn = .value factory ∧
        (p.make_node_filler_node field_name fn).1
          = .value (some (factory (p.mapper.find_register_field_name field_name).1))) ∧
    (p.is_filler_function fn = false → p.is_value_function fn = true →
      ∃ factory, map_at p.value_functions fn = .value factory ∧
        (p.make_node_filler_node field_name fn).1
          = .value (some (.function_value_filler_node
              (factory (p.mapper.find_register_field_name field_name).1)))) ∧
    (p.is_filler_function fn = true → p.is_value_function fn = true →
      (p.make_node_filler_node field_name fn).1
        = (p.allocate_filler_function fn
            (p.mapper.find_register_field_name field_name).1).and_then
            (fun n => .value (some n))) ∧
    map_find (p.make_node_filler_node field_name fn).2.mapper.str2id field_name
      = some (p.mapper.find_register_field_name field_name).1 := by
  refine ⟨?_, ?_, ?_, ?_⟩
  · intro hf
    obtain ⟨factory, hfac⟩ := (is_filler_function_iff p fn).mp hf
    refine ⟨factory, by simp [map_at, hfac], ?_⟩
    simp [SyntaxParser.make_node_filler_node, SyntaxParser.is_filler_function, map_count,
      SyntaxParser.allocate_filler_function, map_at, hfac, outcome.and_then]
  · intro hf hv
    obtain ⟨factory, hfac⟩ := (is_value_function_iff p fn).mp hv
    have hnone : map_find p.filler_functions fn = none := by
      cases h : map_find p.filler_functions fn with
      | none => rfl
      | some ff =>
        have := (is_filler_function_iff p fn).mpr ⟨ff, h⟩
        rw [hf] at this
        cases this
    refine ⟨factory, by simp [map_at, hfac], ?_⟩
    simp [SyntaxParser.make_node_filler_node, SyntaxParser.is_filler_function,
      SyntaxParser.is_value_function, map_count, SyntaxParser.allocate_value_function,
      map_at, hfac, hnone, outcome.and_then]
  · intro hf _
    obtain ⟨factory, hfac⟩ := (is_filler_function_iff p fn).mp hf
    simp [SyntaxParser.make_node_filler_node, SyntaxParser.is_filler_function, map_count,
      SyntaxParser.allocate_filler_function, map_at, hfac, outcome.and_then]
  · rw [make_node_filler_node_mapper]
    exact find_register_field_name_bound p.mapper field_name

/-- Witness of C17: the key `"md5"` is registered as a value function as
well; the node is the one of the filling function. -/
theorem make_node_filler_node_dispatch_witness :
    ((SyntaxParser.create.register_value_function "md5"
        value_node.size_function).make_node_filler_node "body" "md5").1
      = (((SyntaxParser.create.register_value_function "md5"
        value_node.size_function).allocate_filler_function "md5" 0).and_then
          (fun n => .value (some n))) ∧
    ((SyntaxParser.create.register_value_function "md5"
        value_node.size_function).allocate_filler_function "md5" 0)
      = .value (.md5_function 0) :=
  ⟨(make_node_filler_node_dispatch
      (SyntaxParser.create.register_value_function "md5" value_node.size_function)
      "body" "md5").2.2.1 (by decide) (by decide),
   by decide⟩

end SlothFuzzer
